import Mathlib

/-!
Verification of the elementwise kernel-generation engine, aliasing
bookkeeping, compilation-cache keying, shape/dtype inference, scalar
dispatch, gradient accumulation and input wrapping of `core.py`
(the omega/Theano core).

Each Python function of the source is shallowly embedded as a Lean
definition of the same name (where legal).  Python `%`-template strings
become Lean string concatenation; per-loop-variable templates become
functions `String → String`; external libraries (numpy's dtype promotion,
the md5 module, the gof graph library's accumulator) are threaded as
explicit function parameters.
-/

/-- Python `"".join(l)`: concatenation of a list of strings. -/
def strJoin (l : List String) : String := l.foldl (fun a b => a ++ b) ""

theorem strFoldl_append (init : String) (l : List String) :
    l.foldl (fun a b => a ++ b) init = init ++ l.foldl (fun a b => a ++ b) "" := by
  induction l generalizing init with
  | nil => simp [List.foldl, String.append_empty]
  | cons x t ih =>
    simp only [List.foldl]
    rw [ih (init ++ x), ih ("" ++ x), String.empty_append, String.append_assoc]

theorem strJoin_cons (x : String) (t : List String) :
    strJoin (x :: t) = x ++ strJoin t := by
  simp only [strJoin, List.foldl]
  rw [strFoldl_append ("" ++ x), String.empty_append]

/-- A member of a list of strings splits the joined string around it. -/
theorem strJoin_decomp {l : List String} {x : String} (h : x ∈ l) :
    ∃ a b, strJoin l = a ++ (x ++ b) := by
  induction l with
  | nil => cases h
  | cons y t ih =>
    rcases List.mem_cons.mp h with rfl | hmem
    · exact ⟨"", strJoin t, by rw [strJoin_cons, String.empty_append]⟩
    · obtain ⟨a, b, hab⟩ := ih hmem
      exact ⟨y ++ a, b, by rw [strJoin_cons, hab, String.append_assoc]⟩

/-! ## The elementwise loop code generator (`elemwise_loopcode`)

Source lines 361-389.  The Python `%`-substituted templates
`init_template`, `next_template`, `acquire_template`, `cleanup_template`
are embedded as functions from the loop variable's name to the emitted
text.  `idefs` binds each read loop variable's per-iteration value,
`odefs` binds each writable loop variable by reference, and `aliasdefs`
binds each aliased input name as a plain alias of the output cursor's
value. -/

/-- One `idefs` entry: `%(loop_var)s_dtype %(loop_var)s_i = <acquire>;`. -/
def idefOf (acquireT : String → String) (v : String) : String :=
  v ++ "_dtype " ++ v ++ "_i = " ++ acquireT v ++ ";\n"

/-- One `odefs` entry: `%(loop_var)s_dtype& %(loop_var)s_i = <acquire>;`. -/
def odefOf (acquireT : String → String) (v : String) : String :=
  v ++ "_dtype& " ++ v ++ "_i = " ++ acquireT v ++ ";\n"

/-- One `aliasdefs` entry for `(v1, v2)`:
`%(v1)s_dtype %(v1)s_i = %(v2)s_i;` — the aliased input's loop name is
defined by reading the output's loop cursor, not through an iterator of
its own. -/
def aliasdefOf (p : String × String) : String :=
  p.1 ++ "_dtype " ++ p.1 ++ "_i = " ++ p.2 ++ "_i;\n"

/-- `elemwise_loopcode` (source lines 361-389): the body of one iteration
strategy.  Cursor initialisation (`init`), advancing (`next`) and cleanup
run over `all_loop_vars = loop_vars + writable_loop_vars`; `aliases` maps
an input name to the output name whose cursor it reads. -/
def elemwise_loopcode (loopcode : String)
    (initT nextT acquireT cleanupT : String → String)
    (loop_vars writable_loop_vars : List String)
    (aliases : List (String × String)) : String :=
  let all_loop_vars := loop_vars ++ writable_loop_vars
  let init := strJoin (all_loop_vars.map initT)
  let next := strJoin (all_loop_vars.map nextT)
  let cleanup := strJoin (all_loop_vars.map cleanupT)
  let idefs := strJoin (loop_vars.map (idefOf acquireT))
  let odefs := strJoin (writable_loop_vars.map (odefOf acquireT))
  let aliasdefs := strJoin (aliases.map aliasdefOf)
  "\n    " ++ init ++
  "\n    while (__elemwise_size--) \x7b\n        " ++ idefs ++
  "\n        " ++ odefs ++
  "\n        " ++ aliasdefs ++
  "\n        " ++ loopcode ++
  "\n        " ++ next ++
  "\n    \x7d\n    " ++ cleanup ++
  "\n    "

/-! ## The dual-path wrapper (`elemwise_wrap`, source lines 392-440) -/

def general_init (v : String) : String :=
  "PyArrayIterObject* " ++ v ++ "_iter = (PyArrayIterObject*)PyArray_IterNew((PyObject*)" ++ v ++ ");\n"

def general_next (v : String) : String :=
  "PyArray_ITER_NEXT(" ++ v ++ "_iter);\n"

def general_acquire (v : String) : String :=
  "*((" ++ v ++ "_dtype*)" ++ v ++ "_iter->dataptr)"

def general_cleanup (v : String) : String :=
  "if (" ++ v ++ "_iter) Py_DECREF(" ++ v ++ "_iter);\n"

def contiguous_init (v : String) : String :=
  v ++ "_dtype* __restrict__ " ++ v ++ "_iter = (" ++ v ++ "_dtype*)PyArray_DATA(" ++ v ++ ");\n"

def contiguous_next (v : String) : String :=
  v ++ "_iter++;\n"

def contiguous_acquire (v : String) : String :=
  "*" ++ v ++ "_iter"

def contiguous_cleanup (_v : String) : String := ""

/-- One loop variable's contribution to the runtime contiguity check. -/
def contiguity_check_of (v : String) : String :=
  "all_c_contiguous &= PyArray_ISCARRAY(" ++ v ++ ");\n" ++
  "all_f_contiguous &= PyArray_ISFARRAY(" ++ v ++ ");\n"

/-- `elemwise_wrap` (source lines 392-440): emits the before-loop code,
the runtime contiguity check over every loop variable (read and
writable), an `if` choosing the contiguous loop when all arrays are
C-contiguous or all are F-contiguous and the general (strided-iterator)
loop otherwise, and the after-loop code. -/
def elemwise_wrap (beforeloop inloop afterloop : String)
    (loop_vars writable_loop_vars : List String)
    (aliases : List (String × String)) : String :=
  let all_loop_vars := loop_vars ++ writable_loop_vars
  let v1 := (loop_vars ++ writable_loop_vars).getD 0 ""
  let general_loop := elemwise_loopcode inloop
    general_init general_next general_acquire general_cleanup
    loop_vars writable_loop_vars aliases
  let contiguous_loop := elemwise_loopcode inloop
    contiguous_init contiguous_next contiguous_acquire contiguous_cleanup
    loop_vars writable_loop_vars aliases
  let contiguity_check := strJoin (all_loop_vars.map contiguity_check_of)
  "\n    npy_intp __elemwise_size = PyArray_SIZE(" ++ v1 ++ ");\n    " ++
  beforeloop ++
  "\n    bool all_c_contiguous = 1;\n    bool all_f_contiguous = 1;\n    " ++
  contiguity_check ++
  "\n    if (all_c_contiguous || all_f_contiguous) \x7b\n        " ++
  contiguous_loop ++
  "\n    \x7d\n    else \x7b\n        " ++
  general_loop ++
  "\n    \x7d\n    " ++
  afterloop ++
  "\n    "

/-- The runtime value of the generated contiguity check: starting from
`all_c_contiguous = 1; all_f_contiguous = 1`, each loop variable's array
is tested with `&= PyArray_ISCARRAY` / `&= PyArray_ISFARRAY`, and the
contiguous path is taken when `all_c_contiguous || all_f_contiguous`.
`iscarr`/`isfarr` give each array's layout flags, known only at run
time. -/
def contiguity_select (iscarr isfarr : String → Bool)
    (all_loop_vars : List String) : Bool :=
  (all_loop_vars.foldl (fun acc v => acc && iscarr v) true) ||
  (all_loop_vars.foldl (fun acc v => acc && isfarr v) true)

/-! ## Containment of one string in another -/

/-- `strContains s x`: `x` occurs as a contiguous segment of `s`. -/
def strContains (s x : String) : Prop := ∃ a b, s = a ++ (x ++ b)

theorem strContains_trans {w m x : String}
    (h1 : ∃ a b, w = a ++ (m ++ b)) (h2 : ∃ c d, m = c ++ (x ++ d)) :
    strContains w x := by
  obtain ⟨a, b, h1⟩ := h1
  obtain ⟨c, d, h2⟩ := h2
  exact ⟨a ++ c, d ++ b, by rw [h1, h2]; simp only [String.append_assoc]⟩

theorem foldl_band (f : String → Bool) (l : List String) (acc : Bool) :
    l.foldl (fun a v => a && f v) acc = (acc && l.all f) := by
  induction l generalizing acc with
  | nil => simp
  | cons x t ih => simp [List.foldl, ih, Bool.and_assoc]

/-- `elemwise_loopcode`'s output, split around the alias definitions. -/
theorem elemwise_loopcode_split (loopcode : String)
    (iT nT aT cT : String → String) (lv wv : List String)
    (al : List (String × String)) :
    elemwise_loopcode loopcode iT nT aT cT lv wv al =
      ("\n    " ++ strJoin ((lv ++ wv).map iT) ++
        "\n    while (__elemwise_size--) \x7b\n        " ++
        strJoin (lv.map (idefOf aT)) ++ "\n        " ++
        strJoin (wv.map (odefOf aT)) ++ "\n        ")
      ++ (strJoin (al.map aliasdefOf)
      ++ ("\n        " ++ loopcode ++ "\n        " ++
          strJoin ((lv ++ wv).map nT) ++ "\n    \x7d\n    " ++
          strJoin ((lv ++ wv).map cT) ++ "\n    ")) := by
  simp only [elemwise_loopcode, String.append_assoc]

/-- `elemwise_wrap`'s output, split around the two loop bodies. -/
theorem elemwise_wrap_split (beforeloop inloop afterloop : String)
    (lv wv : List String) (al : List (String × String)) :
    elemwise_wrap beforeloop inloop afterloop lv wv al =
      ("\n    npy_intp __elemwise_size = PyArray_SIZE(" ++ (lv ++ wv).getD 0 "" ++
        ");\n    " ++ beforeloop ++
        "\n    bool all_c_contiguous = 1;\n    bool all_f_contiguous = 1;\n    " ++
        strJoin ((lv ++ wv).map contiguity_check_of) ++
        "\n    if (all_c_contiguous || all_f_contiguous) \x7b\n        ")
      ++ (elemwise_loopcode inloop contiguous_init contiguous_next contiguous_acquire
            contiguous_cleanup lv wv al
      ++ ("\n    \x7d\n    else \x7b\n        "
      ++ (elemwise_loopcode inloop general_init general_next general_acquire
            general_cleanup lv wv al
      ++ ("\n    \x7d\n    " ++ afterloop ++ "\n    ")))) := by
  simp only [elemwise_wrap, String.append_assoc]

/-- C4: the kernel source produced by `elemwise_wrap` always contains both
the contiguous loop and the general (strided-iterator) loop, guarded by the
runtime contiguity check; the check selects the contiguous loop exactly when
every loop variable (read and writable) is C-contiguous (`PyArray_ISCARRAY`)
for all arrays, or F-contiguous (`PyArray_ISFARRAY`) for all arrays, and in
every other case the general loop runs. -/
theorem elemwise_wrap_dual_path (beforeloop inloop afterloop : String)
    (loop_vars writable_loop_vars : List String)
    (aliases : List (String × String)) (iscarr isfarr : String → Bool) :
    (∃ s t u, elemwise_wrap beforeloop inloop afterloop loop_vars writable_loop_vars aliases =
      s ++ (elemwise_loopcode inloop contiguous_init contiguous_next contiguous_acquire
              contiguous_cleanup loop_vars writable_loop_vars aliases
        ++ (t ++ (elemwise_loopcode inloop general_init general_next general_acquire
              general_cleanup loop_vars writable_loop_vars aliases ++ u)))) ∧
    (contiguity_select iscarr isfarr (loop_vars ++ writable_loop_vars) = true ↔
      ((loop_vars ++ writable_loop_vars).all iscarr = true ∨
       (loop_vars ++ writable_loop_vars).all isfarr = true)) := by
  constructor
  · exact ⟨_, _, _, elemwise_wrap_split beforeloop inloop afterloop
      loop_vars writable_loop_vars aliases⟩
  · simp [contiguity_select, foldl_band]

/-! ## `elemwise.c_code`'s aliasing bookkeeping (source lines 567-600)

An elementwise operator instance is described by the names
`inspect.getargspec` recovers (`inames`/`onames`), the loop-variable
subsets (`linames`/`lonames`), whether the class inherits the `inplace`
(gof.Destroyer) marker, the identities of its input Results (Python
object ids, used by `self.inputs.index(input)`), and its destroy map at
the index level: `inplace_version`'s `destroy_map` returns
`{self.outputs[o]: [self.inputs[i]]}` for each `(o, i)` of `dmap`. -/

structure ElemDescr where
  inames : List String
  onames : List String
  linames : List String
  lonames : List String
  isInplaceOp : Bool
  inputIds : List Nat
  dmap : List (Nat × Nat)

/-- Python `list.index(x)`: position of the first element equal to `x`. -/
def pyIndex : List Nat → Nat → Nat
  | [], _ => 0
  | a :: t, x => if a = x then 0 else pyIndex t x + 1

theorem pyIndex_getD (l : List Nat) (i : Nat) (hn : l.Nodup) (hi : i < l.length) :
    pyIndex l (l.getD i 0) = i := by
  induction l generalizing i with
  | nil => simp at hi
  | cons a t ih =>
    cases i with
    | zero => simp [pyIndex]
    | succ j =>
      have hj : j < t.length := by simpa using hi
      have hmem : t.getD j 0 ∈ t := by
        rw [List.getD_eq_getElem t 0 hj]; exact List.getElem_mem hj
      have hne : ¬ a = t.getD j 0 := by
        intro he
        exact (List.nodup_cons.mp hn).1 (he ▸ hmem)
      rw [List.getD_cons_succ]
      simp only [pyIndex]
      rw [if_neg hne, ih j (List.nodup_cons.mp hn).2 hj]

/-- Python dict assignment `d[k] = v` on an insertion-ordered dict
represented as an association list. -/
def dictSet (d : List (String × String)) (k v : String) : List (String × String) :=
  if d.any (fun p => p.1 == k) then
    d.map (fun p => if p.1 == k then (k, v) else p)
  else d ++ [(k, v)]

theorem dictSet_mem_self (d : List (String × String)) (k v : String) :
    (k, v) ∈ dictSet d k v := by
  unfold dictSet
  by_cases h : d.any (fun p => p.1 == k)
  · simp only [h, if_true]
    obtain ⟨p, hp, hpk⟩ := List.any_eq_true.mp h
    exact List.mem_map.mpr ⟨p, hp, by simp [hpk]⟩
  · simp [h]

theorem dictSet_mem_preserve {d : List (String × String)} {k0 v0 : String}
    (k v : String) (hne : k0 ≠ k) (h : (k0, v0) ∈ d) :
    (k0, v0) ∈ dictSet d k v := by
  unfold dictSet
  by_cases hc : d.any (fun p => p.1 == k)
  · simp only [hc, if_true]
    exact List.mem_map.mpr ⟨(k0, v0), h, by simp [hne]⟩
  · simp only [hc, if_false]
    exact List.mem_append_left _ h

/-- The name under which `c_code` records an alias for destroy-map entry
input index `i`: `inames[self.inputs.index(input)]` where
`input = self.inputs[i]`. -/
def aliasKeyOf (d : ElemDescr) (i : Nat) : String :=
  d.inames.getD (pyIndex d.inputIds (d.inputIds.getD i 0)) ""

/-- The `aliases` dict built by `elemwise.c_code` (source lines 587-593):
for each output name that is a loop variable, each destroy-map input
aliased to it is keyed by its input name, mapped to the output name. -/
def computeAliases (d : ElemDescr) : List (String × String) :=
  if d.isInplaceOp then
    (List.range d.onames.length).foldl (fun acc o =>
      if d.onames.getD o "" ∈ d.lonames then
        (d.dmap.filter (fun p => p.1 == o)).foldl (fun acc2 p =>
          dictSet acc2 (aliasKeyOf d p.2) (d.onames.getD o "")) acc
      else acc) []
  else []

/-- The independent loop-variable list `c_code` passes to `elemwise_wrap`:
`[name for name in linames if name not in aliases]`. -/
def c_code_loop_vars (d : ElemDescr) : List String :=
  d.linames.filter (fun n => !((computeAliases d).any (fun p => p.1 == n)))

/-- The kernel body `elemwise.c_code` hands to `cgen`:
`elemwise_wrap(before, during, after, loop_vars-minus-aliased, lonames, aliases)`. -/
def elemwise_c_code (d : ElemDescr) (before during after : String) : String :=
  elemwise_wrap before during after (c_code_loop_vars d) d.lonames (computeAliases d)

theorem foldl_range_pred {A : Type} (F : A → Nat → A) (P : A → Prop) (n o : Nat)
    (ho : o < n) (hintro : ∀ acc, P (F acc o))
    (hpres : ∀ o' acc, o' ≠ o → P acc → P (F acc o')) (init : A) :
    P ((List.range n).foldl F init) := by
  induction n with
  | zero => omega
  | succ m ih =>
    rw [List.range_succ, List.foldl_append]
    rcases Nat.lt_succ_iff_lt_or_eq.mp ho with hlt | rfl
    · exact hpres m _ (Nat.ne_of_gt hlt) (ih hlt)
    · exact hintro _

theorem filter_key_eq_nil {l : List (Nat × Nat)} {o : Nat}
    (h : o ∉ l.map Prod.fst) : l.filter (fun p => p.1 == o) = [] := by
  rw [List.filter_eq_nil_iff]
  intro p hp
  simp only [beq_iff_eq]
  intro he
  exact h (he ▸ List.mem_map_of_mem Prod.fst hp)

theorem filter_key_singleton {l : List (Nat × Nat)} {o i : Nat}
    (hk : (l.map Prod.fst).Nodup) (hmem : (o, i) ∈ l) :
    l.filter (fun p => p.1 == o) = [(o, i)] := by
  induction l with
  | nil => cases hmem
  | cons a t ih =>
    rw [List.map_cons, List.nodup_cons] at hk
    rcases List.mem_cons.mp hmem with rfl | hmt
    · rw [List.filter_cons, if_pos (by simp)]
      rw [filter_key_eq_nil hk.1]
    · have hao : ¬ (a.1 == o) = true := by
        simp only [beq_iff_eq]
        intro he
        exact hk.1 (he ▸ List.mem_map_of_mem Prod.fst hmt)
      rw [List.filter_cons, if_neg hao]
      exact ih hk.2 hmt

theorem getD_ne_of_nodup {l : List String} {i j : Nat} (hn : l.Nodup)
    (hi : i < l.length) (hj : j < l.length) (hij : i ≠ j) :
    l.getD i "" ≠ l.getD j "" := by
  rw [List.getD_eq_getElem l "" hi, List.getD_eq_getElem l "" hj]
  intro he
  exact hij ((List.Nodup.getElem_inj_iff hn).mp he)

theorem aliasKeyOf_eq (d : ElemDescr) (i : Nat) (hids : d.inputIds.Nodup)
    (hii : i < d.inputIds.length) :
    aliasKeyOf d i = d.inames.getD i "" := by
  unfold aliasKeyOf
  rw [pyIndex_getD _ _ hids hii]

theorem foldl_dictSet_preserve {β : Type} (key : β → String) (value : β → String)
    {k0 v0 : String} (l : List β) (acc : List (String × String))
    (h : (k0, v0) ∈ acc) (hk : ∀ p ∈ l, key p ≠ k0) :
    (k0, v0) ∈ l.foldl (fun a p => dictSet a (key p) (value p)) acc := by
  induction l generalizing acc with
  | nil => exact h
  | cons x t ih =>
    apply ih
    · exact dictSet_mem_preserve _ _ (Ne.symm (hk x (List.mem_cons_self x t))) h
    · exact fun p hp => hk p (List.mem_cons_of_mem x hp)

theorem computeAliases_mem (d : ElemDescr) {o i : Nat}
    (hinpl : d.isInplaceOp = true)
    (hmem : (o, i) ∈ d.dmap)
    (ho : o < d.onames.length)
    (holon : d.onames.getD o "" ∈ d.lonames)
    (hkeys : (d.dmap.map Prod.fst).Nodup)
    (hvals : (d.dmap.map Prod.snd).Nodup)
    (hids : d.inputIds.Nodup)
    (hnamesI : d.inames.Nodup)
    (hdom : ∀ p ∈ d.dmap, p.2 < d.inames.length ∧ p.2 < d.inputIds.length) :
    (d.inames.getD i "", d.onames.getD o "") ∈ computeAliases d := by
  unfold computeAliases
  simp only [hinpl, if_true]
  apply foldl_range_pred _ (fun acc => (d.inames.getD i "", d.onames.getD o "") ∈ acc) _ o ho
  · intro acc
    rw [if_pos holon, filter_key_singleton hkeys hmem]
    simp only [List.foldl]
    rw [aliasKeyOf_eq d i hids (hdom _ hmem).2]
    exact dictSet_mem_self _ _ _
  · intro o' acc hne hP
    by_cases hcase : d.onames.getD o' "" ∈ d.lonames
    · rw [if_pos hcase]
      apply foldl_dictSet_preserve
      · exact hP
      · intro p hp
        have hpd : p ∈ d.dmap := List.mem_of_mem_filter hp
        have hpo : p.1 = o' := by
          have := List.of_mem_filter hp
          simpa using this
        have hpne : p.2 ≠ i := by
          intro he
          have hpe : p = (o, i) :=
            List.inj_on_of_nodup_map hvals hpd hmem (by simpa using he)
          exact hne (by rw [← hpo, hpe])
        rw [aliasKeyOf_eq d p.2 hids (hdom p hpd).2]
        exact getD_ne_of_nodup hnamesI (hdom p hpd).1 (hdom _ hmem).1 hpne
    · rw [if_neg hcase]
      exact hP

theorem not_mem_c_code_loop_vars {d : ElemDescr} {k v : String}
    (h : (k, v) ∈ computeAliases d) : k ∉ c_code_loop_vars d := by
  intro hk
  have hf := List.of_mem_filter hk
  simp only [Bool.not_eq_true', List.any_eq_false] at hf
  have hkk := hf (k, v) h
  simp at hkk

/-- C1: for an elementwise Destroyer operator with a destroy-map entry
`(o, i)` aliasing output loop variable `onames[o]` to input `inames[i]`,
`elemwise.c_code` removes the aliased input's name from the independent
loop-variable list passed to `elemwise_wrap` and records the alias
`inames[i] ↦ onames[o]` instead, so the kernel source binds the shared
storage through exactly one loop-bound cursor: the output name occurs
exactly once among the cursor-initialised loop variables, the input name
not at all, and the input's per-iteration value is bound inside the loop
body by the alias definition reading the output's cursor. -/
theorem c_code_single_cursor_binding (d : ElemDescr) (o i : Nat)
    (hinpl : d.isInplaceOp = true)
    (hmem : (o, i) ∈ d.dmap)
    (ho : o < d.onames.length)
    (holon : d.onames.getD o "" ∈ d.lonames)
    (hkeys : (d.dmap.map Prod.fst).Nodup)
    (hvals : (d.dmap.map Prod.snd).Nodup)
    (hids : d.inputIds.Nodup)
    (hnames : (d.inames ++ d.onames).Nodup)
    (hlin : d.linames.Sublist d.inames)
    (hlon : d.lonames.Sublist d.onames)
    (hdom : ∀ p ∈ d.dmap, p.2 < d.inames.length ∧ p.2 < d.inputIds.length) :
    (d.inames.getD i "", d.onames.getD o "") ∈ computeAliases d ∧
    d.inames.getD i "" ∉ c_code_loop_vars d ∧
    (c_code_loop_vars d ++ d.lonames).count (d.onames.getD o "") = 1 ∧
    (c_code_loop_vars d ++ d.lonames).count (d.inames.getD i "") = 0 ∧
    (∀ before during after, strContains (elemwise_c_code d before during after)
      (aliasdefOf (d.inames.getD i "", d.onames.getD o ""))) := by
  obtain ⟨hnI, hnO, hdisj⟩ := List.nodup_append.mp hnames
  have hAmem := computeAliases_mem d hinpl hmem ho holon hkeys hvals hids hnI hdom
  have hNot := not_mem_c_code_loop_vars hAmem
  have hiI : d.inames.getD i "" ∈ d.inames := by
    rw [List.getD_eq_getElem d.inames "" (hdom _ hmem).1]
    exact List.getElem_mem _
  have hoO : d.onames.getD o "" ∈ d.onames := by
    rw [List.getD_eq_getElem d.onames "" ho]
    exact List.getElem_mem _
  have hlvI : ∀ x ∈ c_code_loop_vars d, x ∈ d.inames := fun x hx =>
    hlin.subset (List.mem_of_mem_filter hx)
  have honotl : d.onames.getD o "" ∉ c_code_loop_vars d := fun hc =>
    hdisj (hlvI _ hc) hoO
  have hinotlon : d.inames.getD i "" ∉ d.lonames := fun hc =>
    hdisj hiI (hlon.subset hc)
  refine ⟨hAmem, hNot, ?_, ?_, ?_⟩
  · rw [List.count_append, List.count_eq_zero.mpr honotl,
      List.count_eq_one_of_mem (hnO.sublist hlon) holon]
  · rw [List.count_append, List.count_eq_zero.mpr hNot,
      List.count_eq_zero.mpr hinotlon]
  · intro before during after
    have h1 : ∃ a b, elemwise_c_code d before during after =
        a ++ (elemwise_loopcode during contiguous_init contiguous_next contiguous_acquire
          contiguous_cleanup (c_code_loop_vars d) d.lonames (computeAliases d) ++ b) :=
      ⟨_, _, elemwise_wrap_split before during after (c_code_loop_vars d) d.lonames
        (computeAliases d)⟩
    have h2 : ∃ a b, elemwise_loopcode during contiguous_init contiguous_next
        contiguous_acquire contiguous_cleanup (c_code_loop_vars d) d.lonames
        (computeAliases d) =
        a ++ (strJoin ((computeAliases d).map aliasdefOf) ++ b) :=
      ⟨_, _, elemwise_loopcode_split during contiguous_init contiguous_next
        contiguous_acquire contiguous_cleanup (c_code_loop_vars d) d.lonames
        (computeAliases d)⟩
    exact strContains_trans h1 (strContains_trans h2
      (strJoin_decomp (List.mem_map_of_mem aliasdefOf hAmem)))

/-- The `ElemDescr` of `add_elemwise_inplace = add_elemwise.inplace_version()`:
`c_foreach((x_i, y_i), (z_i,))`, destroy map `{0: 0}`, two distinct input
Results. -/
def addElemwiseInplaceDescr : ElemDescr :=
  ⟨["x", "y"], ["z"], ["x", "y"], ["z"], true, [10, 11], [(0, 0)]⟩

/-- C1 witness: for `add_elemwise_inplace`, the aliased input `x` is
dropped from the loop-variable list and bound through `z`'s cursor. -/
theorem c_code_single_cursor_binding_witness :
    ("x", "z") ∈ computeAliases addElemwiseInplaceDescr ∧
    "x" ∉ c_code_loop_vars addElemwiseInplaceDescr ∧
    (c_code_loop_vars addElemwiseInplaceDescr ++ addElemwiseInplaceDescr.lonames).count "z" = 1 ∧
    (c_code_loop_vars addElemwiseInplaceDescr ++ addElemwiseInplaceDescr.lonames).count "x" = 0 ∧
    (∀ before during after, strContains
      (elemwise_c_code addElemwiseInplaceDescr before during after) (aliasdefOf ("x", "z"))) :=
  c_code_single_cursor_binding addElemwiseInplaceDescr 0 0 rfl (by decide) (by decide)
    (by decide) (by decide) (by decide) (by decide) (by decide) (by decide) (by decide)
    (by decide)

/-! ## Buffers, `elemwise.alloc` and the derived in-place implementation
(source lines 508-517 and 602-645) -/

theorem getD_set_ne {β : Type} (l : List β) (d : β) (i j : Nat) (x : β)
    (hij : i ≠ j) : (l.set i x).getD j d = l.getD j d := by
  simp [List.getD, List.get?_eq_getElem?, List.getElem?_set_ne hij]

theorem getD_set_self {β : Type} (l : List β) (d : β) (i : Nat) (x : β)
    (hi : i < l.length) : (l.set i x).getD i d = x := by
  simp [List.getD, List.get?_eq_getElem?, List.getElem?_set_self hi]

theorem getD_map_inr {α : Type} (l : List (List α)) (n : Nat) :
    (l.map Sum.inr).getD n (Sum.inr ([] : List α) : Nat ⊕ List α) =
      Sum.inr (l.getD n []) := by
  simp only [List.getD, List.get?_eq_getElem?, List.getElem?_map]
  cases l[n]? <;> rfl

/-- A heap of numpy buffers: a data handle (Python object identity) is an
index into `bufs`, and the buffer's contents are its element values. -/
structure Heap (α : Type) where
  bufs : List (List α)

def Heap.read {α : Type} (h : Heap α) (p : Nat) : List α := h.bufs.getD p []

def Heap.write {α : Type} (h : Heap α) (p : Nat) (v : List α) : Heap α :=
  ⟨h.bufs.set p v⟩

theorem Heap.read_write_self {α : Type} (h : Heap α) (p : Nat) (v : List α)
    (hp : p < h.bufs.length) : (h.write p v).read p = v := by
  simp only [Heap.read, Heap.write]
  exact getD_set_self _ _ _ _ hp

theorem Heap.read_write_ne {α : Type} (h : Heap α) (p q : Nat) (v : List α)
    (hpq : p ≠ q) : (h.write p v).read q = h.read q := by
  simp only [Heap.read, Heap.write]
  exact getD_set_ne _ _ _ _ _ hpq

/-- `numpy.asarray` applied to a value that is already a base-class
`ndarray` returns the very same object (no copy): on data handles it is
the identity.  `NumpyR.set_value` (source lines 681-687) stores
`numpy.asarray(value)` into `self.data`. -/
def numpy_asarray (handle : Nat) : Nat := handle

/-- `elemwise.alloc` (source lines 508-517): the base `gof.PythonOp.alloc`
(external gof library) allocates the outputs not in
`except_list + dmap.keys()`; its result is the `baseAllocd` parameter and
it never touches destroyed outputs.  Then every destroy-map output not in
`except_list` gets `output.set_value(input.data)`. -/
def elemwise_alloc (baseAllocd : List (Option Nat)) (inputData : List Nat)
    (dmap : List (Nat × Nat)) (exceptL : List Nat) : List (Option Nat) :=
  dmap.foldl (fun outs p =>
    if p.1 ∈ exceptL then outs
    else outs.set p.1 (some (numpy_asarray (inputData.getD p.2 0)))) baseAllocd

theorem elemwise_alloc_untouched (base : List (Option Nat)) (inputData : List Nat)
    (dmap : List (Nat × Nat)) (exceptL : List Nat) {o : Nat}
    (h : ∀ p ∈ dmap, p.1 ≠ o) :
    (elemwise_alloc base inputData dmap exceptL).getD o none = base.getD o none := by
  induction dmap generalizing base with
  | nil => rfl
  | cons a t ih =>
    have step : elemwise_alloc base inputData (a :: t) exceptL =
        elemwise_alloc (if a.1 ∈ exceptL then base
          else base.set a.1 (some (numpy_asarray (inputData.getD a.2 0))))
          inputData t exceptL := rfl
    rw [step, ih _ (fun p hp => h p (List.mem_cons_of_mem a hp))]
    by_cases hc : a.1 ∈ exceptL
    · rw [if_pos hc]
    · rw [if_neg hc]
      exact getD_set_ne _ _ _ _ _ (h a (List.mem_cons_self a t))

/-- After `elemwise.alloc`, a destroyed output's data handle is the
aliased input's data handle. -/
theorem elemwise_alloc_getD (baseAllocd : List (Option Nat)) (inputData : List Nat)
    (dmap : List (Nat × Nat)) (exceptL : List Nat) {o i : Nat}
    (hmem : (o, i) ∈ dmap) (hkeys : (dmap.map Prod.fst).Nodup)
    (hno : o ∉ exceptL) (ho : o < baseAllocd.length) :
    (elemwise_alloc baseAllocd inputData dmap exceptL).getD o none =
      some (inputData.getD i 0) := by
  induction dmap generalizing baseAllocd with
  | nil => cases hmem
  | cons a t ih =>
    rw [List.map_cons, List.nodup_cons] at hkeys
    have step : elemwise_alloc baseAllocd inputData (a :: t) exceptL =
        elemwise_alloc (if a.1 ∈ exceptL then baseAllocd
          else baseAllocd.set a.1 (some (numpy_asarray (inputData.getD a.2 0))))
          inputData t exceptL := rfl
    rcases List.mem_cons.mp hmem with rfl | hmt
    · rw [step, if_neg hno]
      have hnot : ∀ p ∈ t, p.1 ≠ (o, i).1 := fun p hp he =>
        hkeys.1 (he ▸ List.mem_map_of_mem Prod.fst hp)
      rw [elemwise_alloc_untouched _ _ _ _ hnot]
      exact getD_set_self _ _ _ _ ho
    · rw [step]
      by_cases hc : a.1 ∈ exceptL
      · rw [if_pos hc]
        exact ih _ hmt hkeys.2 ho
      · rw [if_neg hc]
        exact ih _ hmt hkeys.2 (by rw [List.length_set]; exact ho)

/-- One step of the copy-back loop of `inplace_version`'s derived `_impl`
(source lines 629-635): `a = self.inputs[input].data; a[:] = res[output];
res[output] = a`.  A result entry is `Sum.inr contents` while it is still
the fresh value the base implementation returned, and `Sum.inl handle`
once replaced by the aliased input's buffer. -/
def inplace_impl_step {α : Type} (inputPtrs : List Nat)
    (acc : List (Nat ⊕ List α) × Heap α) (p : Nat × Nat) :
    List (Nat ⊕ List α) × Heap α :=
  let a := inputPtrs.getD p.2 0
  let v := match acc.1.getD p.1 (Sum.inr []) with
    | Sum.inl q => acc.2.read q
    | Sum.inr vs => vs
  (acc.1.set p.1 (Sum.inl a), acc.2.write a v)

/-- The default branch of the derived `_impl`: run the base implementation
(`baseRes` is the list of fresh per-output element values `cls._impl`
computed), then for each destroy-map entry copy the fresh result into the
aliased input's buffer and return that buffer in the result list. -/
def inplace_default_impl {α : Type} (baseRes : List (List α))
    (dmap : List (Nat × Nat)) (inputPtrs : List Nat) (h : Heap α) :
    List (Nat ⊕ List α) × Heap α :=
  dmap.foldl (inplace_impl_step inputPtrs) (baseRes.map Sum.inr, h)

/-- `inplace_version`'s `C._impl` (source lines 619-639): when the user
set their own in-place implementation (`self.impl is not cls.impl`), it
is used unchanged; otherwise the correct-but-not-efficient copy-back
default runs. -/
def inplace_impl {α : Type}
    (userImpl : Option (Heap α → List (Nat ⊕ List α) × Heap α))
    (baseRes : List (List α)) (dmap : List (Nat × Nat)) (inputPtrs : List Nat)
    (h : Heap α) : List (Nat ⊕ List α) × Heap α :=
  match userImpl with
  | some u => u h
  | none => inplace_default_impl baseRes dmap inputPtrs h

theorem inplace_fold_inv {α : Type} (inputPtrs : List Nat) (bvals : Nat → List α)
    (l : List (Nat × Nat)) (res : List (Nat ⊕ List α)) (h : Heap α)
    (hkeys : (l.map Prod.fst).Nodup)
    (hptrs : (l.map (fun p => inputPtrs.getD p.2 0)).Nodup)
    (hres : ∀ p ∈ l, res.getD p.1 (Sum.inr []) = Sum.inr (bvals p.1))
    (hlen : ∀ p ∈ l, p.1 < res.length)
    (hplen : ∀ p ∈ l, inputPtrs.getD p.2 0 < h.bufs.length) :
    (∀ p ∈ l,
      (l.foldl (inplace_impl_step inputPtrs) (res, h)).1.getD p.1 (Sum.inr [])
          = Sum.inl (inputPtrs.getD p.2 0) ∧
      (l.foldl (inplace_impl_step inputPtrs) (res, h)).2.read (inputPtrs.getD p.2 0)
          = bvals p.1) ∧
    (∀ o, o ∉ l.map Prod.fst →
      (l.foldl (inplace_impl_step inputPtrs) (res, h)).1.getD o (Sum.inr [])
          = res.getD o (Sum.inr [])) ∧
    (∀ q, q ∉ l.map (fun p => inputPtrs.getD p.2 0) →
      (l.foldl (inplace_impl_step inputPtrs) (res, h)).2.read q = h.read q) := by
  induction l generalizing res h with
  | nil =>
    exact ⟨fun p hp => absurd hp (List.not_mem_nil p), fun o _ => rfl, fun q _ => rfl⟩
  | cons a t ih =>
    rw [List.map_cons, List.nodup_cons] at hkeys hptrs
    have hv : inplace_impl_step inputPtrs (res, h) a =
        (res.set a.1 (Sum.inl (inputPtrs.getD a.2 0)),
          h.write (inputPtrs.getD a.2 0) (bvals a.1)) := by
      simp only [inplace_impl_step, hres a (List.mem_cons_self a t)]
    have hfold : (a :: t).foldl (inplace_impl_step inputPtrs) (res, h) =
        t.foldl (inplace_impl_step inputPtrs)
          (res.set a.1 (Sum.inl (inputPtrs.getD a.2 0)),
            h.write (inputPtrs.getD a.2 0) (bvals a.1)) := by
      rw [List.foldl_cons, hv]
    have hres' : ∀ p ∈ t,
        (res.set a.1 (Sum.inl (inputPtrs.getD a.2 0))).getD p.1 (Sum.inr [])
          = Sum.inr (bvals p.1) := by
      intro p hp
      have hne : a.1 ≠ p.1 := fun he => hkeys.1 (he ▸ List.mem_map_of_mem Prod.fst hp)
      rw [getD_set_ne _ _ _ _ _ hne]
      exact hres p (List.mem_cons_of_mem a hp)
    have hlen' : ∀ p ∈ t,
        p.1 < (res.set a.1 (Sum.inl (inputPtrs.getD a.2 0))).length := by
      intro p hp
      rw [List.length_set]
      exact hlen p (List.mem_cons_of_mem a hp)
    have hplen' : ∀ p ∈ t, inputPtrs.getD p.2 0
        < (h.write (inputPtrs.getD a.2 0) (bvals a.1)).bufs.length := by
      intro p hp
      show _ < (h.bufs.set _ _).length
      rw [List.length_set]
      exact hplen p (List.mem_cons_of_mem a hp)
    obtain ⟨ih1, ih2, ih3⟩ := ih _ _ hkeys.2 hptrs.2 hres' hlen' hplen'
    rw [hfold]
    refine ⟨?_, ?_, ?_⟩
    · intro p hp
      rcases List.mem_cons.mp hp with rfl | hpt
      · constructor
        · rw [ih2 p.1 hkeys.1]
          exact getD_set_self _ _ _ _ (hlen p (List.mem_cons_self p t))
        · rw [ih3 (inputPtrs.getD p.2 0) hptrs.1]
          exact Heap.read_write_self h _ _ (hplen p (List.mem_cons_self p t))
      · exact ih1 p hpt
    · intro o hno
      rw [List.map_cons] at hno
      have hne : o ≠ a.1 := fun he => hno (by rw [he]; exact List.mem_cons_self _ _)
      have hnt : o ∉ List.map Prod.fst t := fun hm => hno (List.mem_cons_of_mem _ hm)
      rw [ih2 o hnt]
      exact getD_set_ne _ _ _ _ _ (Ne.symm hne)
    · intro q hnq
      rw [List.map_cons] at hnq
      have hne : q ≠ inputPtrs.getD a.2 0 := fun he =>
        hnq (by rw [he]; exact List.mem_cons_self _ _)
      have hnt : q ∉ List.map (fun p => inputPtrs.getD p.2 0) t := fun hm =>
        hnq (List.mem_cons_of_mem _ hm)
      rw [ih3 q hnt]
      exact Heap.read_write_ne h _ _ _ (Ne.symm hne)

/-- C2: for an in-place (Destroyer) elemwise operator and a destroy-map
entry `(o, i)`: after `elemwise.alloc`, the output Result's data handle is
the very same handle as the aliased input's (object identity — `alloc`
runs `output.set_value(input.data)` and `numpy.asarray` returns an
ndarray argument itself); and the derived in-place implementation returns
the input buffer itself (`Sum.inl`) as the destroyed output's value. -/
theorem destroyed_output_shares_input_handle {α : Type}
    (baseAllocd : List (Option Nat)) (inputData : List Nat)
    (dmap : List (Nat × Nat)) (exceptL : List Nat)
    (baseRes : List (List α)) (inputPtrs : List Nat) (h : Heap α) (o i : Nat)
    (hmem : (o, i) ∈ dmap)
    (hkeys : (dmap.map Prod.fst).Nodup)
    (hptrs : (dmap.map (fun p => inputPtrs.getD p.2 0)).Nodup)
    (hno : o ∉ exceptL) (ho : o < baseAllocd.length)
    (hl : ∀ p ∈ dmap, p.1 < baseRes.length)
    (hplen : ∀ p ∈ dmap, inputPtrs.getD p.2 0 < h.bufs.length) :
    (elemwise_alloc baseAllocd inputData dmap exceptL).getD o none
        = some (inputData.getD i 0) ∧
    (inplace_default_impl baseRes dmap inputPtrs h).1.getD o (Sum.inr [])
        = Sum.inl (inputPtrs.getD i 0) := by
  constructor
  · exact elemwise_alloc_getD baseAllocd inputData dmap exceptL hmem hkeys hno ho
  · have hres : ∀ p ∈ dmap,
        (baseRes.map (Sum.inr : List α → Nat ⊕ List α)).getD p.1 (Sum.inr []) =
          Sum.inr (baseRes.getD p.1 []) :=
      fun p _ => getD_map_inr baseRes p.1
    have hlen : ∀ p ∈ dmap,
        p.1 < (baseRes.map (Sum.inr : List α → Nat ⊕ List α)).length := by
      intro p hp
      rw [List.length_map]
      exact hl p hp
    have hinv := inplace_fold_inv inputPtrs (fun n => baseRes.getD n []) dmap
      (baseRes.map (Sum.inr : List α → Nat ⊕ List α)) h hkeys hptrs hres hlen hplen
    exact (hinv.1 (o, i) hmem).1

/-- C2 witness at a concrete one-output in-place operator: input data
handle 7, one buffer heap, destroy map `{0: 0}`. -/
theorem destroyed_output_shares_input_handle_witness :
    (elemwise_alloc [none] [7] [(0, 0)] []).getD 0 none = some ([7].getD 0 0) ∧
    (inplace_default_impl ([[5]] : List (List Nat)) [(0, 0)] [0] ⟨[[9]]⟩).1.getD 0 (Sum.inr [])
        = Sum.inl ([0].getD 0 0) :=
  destroyed_output_shares_input_handle [none] [7] [(0, 0)] [] ([[5]] : List (List Nat))
    [0] ⟨[[9]]⟩ 0 0 (by decide) (by decide) (by decide) (by decide) (by decide)
    (by decide) (by decide)

/-- C3: the derived class `inplace_version` builds refines the base
operator: without a user-supplied in-place implementation it first runs
the base (non-aliased) interpreted implementation, then copies each
destroyed output's fresh result into the aliased input's buffer — so each
destroyed output's element values (read through the returned buffer)
equal those the base implementation produced, and each non-destroyed
output keeps the base implementation's fresh value; when the user did
supply their own in-place implementation, that implementation is used
instead. -/
theorem inplace_impl_refines_base {α : Type} (baseRes : List (List α))
    (dmap : List (Nat × Nat)) (inputPtrs : List Nat) (h : Heap α)
    (hkeys : (dmap.map Prod.fst).Nodup)
    (hptrs : (dmap.map (fun p => inputPtrs.getD p.2 0)).Nodup)
    (hl : ∀ p ∈ dmap, p.1 < baseRes.length)
    (hplen : ∀ p ∈ dmap, inputPtrs.getD p.2 0 < h.bufs.length) :
    (∀ p ∈ dmap,
      (inplace_impl none baseRes dmap inputPtrs h).1.getD p.1 (Sum.inr [])
          = Sum.inl (inputPtrs.getD p.2 0) ∧
      (inplace_impl none baseRes dmap inputPtrs h).2.read (inputPtrs.getD p.2 0)
          = baseRes.getD p.1 []) ∧
    (∀ o, o ∉ dmap.map Prod.fst →
      (inplace_impl none baseRes dmap inputPtrs h).1.getD o (Sum.inr [])
          = Sum.inr (baseRes.getD o [])) ∧
    (∀ u, inplace_impl (some u) baseRes dmap inputPtrs h = u h) := by
  have hres : ∀ p ∈ dmap,
      (baseRes.map (Sum.inr : List α → Nat ⊕ List α)).getD p.1 (Sum.inr []) =
        Sum.inr (baseRes.getD p.1 []) :=
    fun p _ => getD_map_inr baseRes p.1
  have hlen : ∀ p ∈ dmap,
      p.1 < (baseRes.map (Sum.inr : List α → Nat ⊕ List α)).length := by
    intro p hp
    rw [List.length_map]
    exact hl p hp
  obtain ⟨h1, h2, _⟩ := inplace_fold_inv inputPtrs (fun n => baseRes.getD n []) dmap
    (baseRes.map (Sum.inr : List α → Nat ⊕ List α)) h hkeys hptrs hres hlen hplen
  exact ⟨h1, fun o hno => (h2 o hno).trans (getD_map_inr baseRes o), fun u => rfl⟩

/-- C3 witness: two outputs, destroy map `{0: 1}`, input pointers `[5, 6]`
over a seven-buffer heap: the destroyed output's values land in buffer 6
and equal the base result `[3, 4]`; the untouched output keeps its fresh
value `[8]`. -/
theorem inplace_impl_refines_base_witness :
    (∀ p ∈ [((0 : Nat), (1 : Nat))],
      (inplace_impl none ([[3, 4], [8]] : List (List Nat)) [(0, 1)] [5, 6]
          ⟨[[], [], [], [], [], [], [0, 0]]⟩).1.getD p.1 (Sum.inr [])
          = Sum.inl ([5, 6].getD p.2 0) ∧
      (inplace_impl none ([[3, 4], [8]] : List (List Nat)) [(0, 1)] [5, 6]
          ⟨[[], [], [], [], [], [], [0, 0]]⟩).2.read ([5, 6].getD p.2 0)
          = [[3, 4], [8]].getD p.1 []) ∧
    (∀ o, o ∉ [((0 : Nat), (1 : Nat))].map Prod.fst →
      (inplace_impl none ([[3, 4], [8]] : List (List Nat)) [(0, 1)] [5, 6]
          ⟨[[], [], [], [], [], [], [0, 0]]⟩).1.getD o (Sum.inr [])
          = Sum.inr ([[3, 4], [8]].getD o [])) ∧
    (∀ u, inplace_impl (some u) ([[3, 4], [8]] : List (List Nat)) [(0, 1)] [5, 6]
          ⟨[[], [], [], [], [], [], [0, 0]]⟩ = u ⟨[[], [], [], [], [], [], [0, 0]]⟩) :=
  inplace_impl_refines_base ([[3, 4], [8]] : List (List Nat)) [(0, 1)] [5, 6]
    ⟨[[], [], [], [], [], [], [0, 0]]⟩ (by decide) (by decide) (by decide) (by decide)

/-! ## Shape/dtype inference: `upcast` and `elemwise._specs`
(source lines 443-447 and 461-506) -/

/-- A Result's container kind. -/
inductive PyContainer : Type
  | ndarray
  | pyobject
deriving DecidableEq

/-- A spec `(container, dtype, shape)`; dtypes are coded as naturals. -/
structure RSpec where
  container : PyContainer
  dtype : Nat
  shape : List Nat
deriving DecidableEq

/-- One operator input: whether it is a `NumpyR` instance, and its spec
(`none` models an unset/None spec). -/
structure RInput where
  isNumpy : Bool
  spec : Option RSpec
deriving DecidableEq

/-- `upcast` (source lines 443-447): start from a zero-valued scalar
sample of the first dtype, add a zero-valued sample of each further dtype
and read the result's dtype.  `addT a b` is the dtype of
`numpy.zeros((), a) + numpy.zeros((), b)` — numpy's promotion rule,
threaded as a parameter because it lives outside this repository. -/
def upcast (addT : Nat → Nat → Nat) (dtype : Nat) (dtypes : List Nat) : Nat :=
  dtypes.foldl addT dtype

/-- The dtype list `[input.spec[1] for iname, input in zip(inames, inputs)
if isinstance(input, NumpyR)]`; `none` when a NumpyR input's spec is
unset (in Python that comprehension then raises, caught as "not all numpy
inputs are specified"). -/
def numpyDtypes : List RInput → Option (List Nat)
  | [] => some []
  | inp :: t =>
    match numpyDtypes t with
    | none => none
    | some l =>
      if inp.isNumpy then
        match inp.spec with
        | some sp => some (sp.dtype :: l)
        | none => none
      else some l

/-- One step of `_specs`'s shape scan (source lines 473-476): a loop input
with a known (truthy) spec overwrites the running shape. -/
def specs_shape_step (linames : List String)
    (acc : Option (List Nat)) (p : String × RInput) : Option (List Nat) :=
  if p.1 ∈ linames then
    match p.2.spec with
    | some sp => some sp.shape
    | none => acc
  else acc

/-- The whole shape scan over `zip(inames, self.inputs)`. -/
def specs_shape_scan (linames : List String)
    (pairs : List (String × RInput)) : Option (List Nat) :=
  pairs.foldl (specs_shape_step linames) none

/-- `dmap.get(output, [])` at the index level: the destroy-map input index
for output `o`, if any. -/
def dmapFind (dmap : List (Nat × Nat)) (o : Nat) : Option Nat :=
  match dmap.find? (fun p => p.1 == o) with
  | some p => some p.2
  | none => none

/-- An elemwise operator as `_specs` sees it. -/
structure SpecsDescr where
  inames : List String
  linames : List String
  lonames : List String
  onames : List String
  inputs : List RInput
  isInplaceOp : Bool
  dmap : List (Nat × Nat)
  nout : Nat
  explicitSpecs : Option (List (Option RSpec))

/-- `elemwise._specs` (source lines 461-506): use the class's own `specs`
rule when one is defined; otherwise every output must be a loop variable,
the output shape is scanned from the declared loop inputs with known
specs, the dtype is the `upcast` of every NumpyR input's dtype, destroyed
outputs reuse the aliased input's spec, and every other output gets
`(numpy.ndarray, dtype, shape)`. -/
def elemwise_specs (addT : Nat → Nat → Nat) (d : SpecsDescr) :
    Except String (List (Option RSpec)) :=
  match d.explicitSpecs with
  | some s => Except.ok s
  | none =>
    if !(d.onames.all (fun onm => d.lonames.contains onm)) then
      Except.error "cannot infer a specification automatically for a variable that is not part of the elementwise loop - please override the specs method"
    else
      match specs_shape_scan d.linames (d.inames.zip d.inputs) with
      | none => Except.error "cannot infer a specification automatically for output variables because there is no input variable in the loop from which to get the shape, or their shape is unknown"
      | some shape =>
        match numpyDtypes ((d.inames.zip d.inputs).map Prod.snd) with
        | none => Except.error "not all numpy inputs are specified"
        | some [] => Except.error "not all numpy inputs are specified"
        | some (d0 :: ds) =>
          let dtype := upcast addT d0 ds
          let dmapEff := if d.isInplaceOp then d.dmap else []
          Except.ok ((List.range d.nout).map (fun o =>
            match dmapFind dmapEff o with
            | some i => (d.inputs.getD i ⟨false, none⟩).spec
            | none => some ⟨PyContainer.ndarray, dtype, shape⟩))

theorem specs_scan_fold {linames : List String} (pairs : List (String × RInput))
    (acc : Option (List Nat)) {s : List Nat}
    (h : pairs.foldl (specs_shape_step linames) acc = some s) :
    (∃ p ∈ pairs, p.1 ∈ linames ∧ ∃ sp, p.2.spec = some sp ∧ sp.shape = s) ∨
      acc = some s := by
  induction pairs generalizing acc with
  | nil => exact Or.inr h
  | cons q t ih =>
    rw [List.foldl_cons] at h
    rcases ih _ h with ⟨p, hp, hres⟩ | hacc
    · exact Or.inl ⟨p, List.mem_cons_of_mem q hp, hres⟩
    · by_cases hql : q.1 ∈ linames
      · rw [specs_shape_step, if_pos hql] at hacc
        cases hq2 : q.2.spec with
        | some sp =>
          simp only [hq2] at hacc
          exact Or.inl ⟨q, List.mem_cons_self q t, hql, sp, hq2, Option.some.inj hacc⟩
        | none =>
          simp only [hq2] at hacc
          exact Or.inr hacc
      · rw [specs_shape_step, if_neg hql] at hacc
        exact Or.inr hacc

theorem specs_scan_of_ne_none {linames : List String} (pairs : List (String × RInput))
    (acc : Option (List Nat)) (hacc : acc ≠ none) :
    pairs.foldl (specs_shape_step linames) acc ≠ none := by
  induction pairs generalizing acc with
  | nil => exact hacc
  | cons q t ih =>
    rw [List.foldl_cons]
    apply ih
    rw [specs_shape_step]
    by_cases hql : q.1 ∈ linames
    · rw [if_pos hql]
      cases hq2 : q.2.spec with
      | some sp => simp
      | none => exact hacc
    · rw [if_neg hql]
      exact hacc

theorem specs_scan_qualifying {linames : List String} (pairs : List (String × RInput))
    (acc : Option (List Nat))
    (h : ∃ p ∈ pairs, p.1 ∈ linames ∧ p.2.spec ≠ none) :
    pairs.foldl (specs_shape_step linames) acc ≠ none := by
  induction pairs generalizing acc with
  | nil =>
    obtain ⟨p, hp, _⟩ := h
    cases hp
  | cons q t ih =>
    rw [List.foldl_cons]
    obtain ⟨p, hp, hq1, hq2⟩ := h
    rcases List.mem_cons.mp hp with rfl | hpt
    · apply specs_scan_of_ne_none
      rw [specs_shape_step, if_pos hq1]
      cases hs : p.2.spec with
      | some sp => simp
      | none => exact absurd hs hq2
    · exact ih _ ⟨p, hpt, hq1, hq2⟩

theorem getD_map_range {β : Type} (f : Nat → β) (n o : Nat) (dflt : β) (ho : o < n) :
    ((List.range n).map f).getD o dflt = f o := by
  have hlen : o < ((List.range n).map f).length := by
    rw [List.length_map, List.length_range]
    exact ho
  rw [List.getD_eq_getElem _ _ hlen, List.getElem_map]
  congr 1
  exact List.getElem_range _ _

/-- C6: for an elemwise operator without an explicit `specs` rule — when
every output is a loop variable, some declared loop input carries a known
spec and every NumpyR input is specified — `_specs` succeeds, and every
non-destroyed output's inferred spec is `(numpy.ndarray, dtype, shape)`
where `dtype` is the `upcast` promotion join of the dtypes of every
NumpyR input and `shape` comes from a declared loop input whose spec is
known (all loop inputs being assumed shape-equal). -/
theorem elemwise_specs_fallback (addT : Nat → Nat → Nat) (d : SpecsDescr)
    (d0 : Nat) (ds : List Nat)
    (hexp : d.explicitSpecs = none)
    (hon : d.onames.all (fun onm => d.lonames.contains onm) = true)
    (hdt : numpyDtypes ((d.inames.zip d.inputs).map Prod.snd) = some (d0 :: ds))
    (hsh : ∃ p ∈ d.inames.zip d.inputs, p.1 ∈ d.linames ∧ p.2.spec ≠ none) :
    ∃ res shape,
      elemwise_specs addT d = Except.ok res ∧
      (∃ p ∈ d.inames.zip d.inputs, p.1 ∈ d.linames ∧
        ∃ sp, p.2.spec = some sp ∧ sp.shape = shape) ∧
      ∀ o, o < d.nout →
        dmapFind (if d.isInplaceOp then d.dmap else []) o = none →
        res.getD o none = some ⟨PyContainer.ndarray, upcast addT d0 ds, shape⟩ := by
  have hscan := specs_scan_qualifying (d.inames.zip d.inputs) none hsh
  obtain ⟨shape, hshape⟩ := Option.ne_none_iff_exists'.mp hscan
  have hcomp : elemwise_specs addT d = Except.ok ((List.range d.nout).map (fun o =>
      match dmapFind (if d.isInplaceOp then d.dmap else []) o with
      | some i => (d.inputs.getD i ⟨false, none⟩).spec
      | none => some ⟨PyContainer.ndarray, upcast addT d0 ds, shape⟩)) := by
    unfold elemwise_specs
    rw [hexp, hon]
    rw [show specs_shape_scan d.linames (d.inames.zip d.inputs) = some shape from hshape]
    rw [hdt]
    rfl
  refine ⟨_, shape, hcomp, ?_, ?_⟩
  · rcases specs_scan_fold _ _ hshape with hprov | habs
    · exact hprov
    · cases habs
  · intro o hno hdm
    rw [getD_map_range _ _ _ _ hno, hdm]

/-- `add_elemwise(x, y)` on two specified float arrays of shape `(3,)`
(dtype codes 1 and 2), no explicit `specs` rule, not in-place. -/
def addElemwiseSpecsDescr : SpecsDescr :=
  ⟨["x", "y"], ["x", "y"], ["z"], ["z"],
    [⟨true, some ⟨PyContainer.ndarray, 1, [3]⟩⟩,
     ⟨true, some ⟨PyContainer.ndarray, 2, [3]⟩⟩],
    false, [], 1, none⟩

/-- C6 witness: inference on `add_elemwise` with concrete input specs
(promotion modelled by `Nat.max`). -/
theorem elemwise_specs_fallback_witness :
    ∃ res shape,
      elemwise_specs Nat.max addElemwiseSpecsDescr = Except.ok res ∧
      (∃ p ∈ addElemwiseSpecsDescr.inames.zip addElemwiseSpecsDescr.inputs,
        p.1 ∈ addElemwiseSpecsDescr.linames ∧
        ∃ sp, p.2.spec = some sp ∧ sp.shape = shape) ∧
      ∀ o, o < addElemwiseSpecsDescr.nout →
        dmapFind (if addElemwiseSpecsDescr.isInplaceOp then addElemwiseSpecsDescr.dmap
          else []) o = none →
        res.getD o none = some ⟨PyContainer.ndarray, upcast Nat.max 1 [2], shape⟩ :=
  elemwise_specs_fallback Nat.max addElemwiseSpecsDescr 1 [2] rfl (by decide)
    (by decide) (by decide)

/-! ## The scalar/tensor dispatcher `scalar_switch` (source lines 647-658)
and `input` (source lines 116-132) -/

/-- The Python exceptions the embedded code raises, compared by class as
`except` clauses do.  `valueError` is the class `assert_same_shapes` and
`tensor_scalar_impl` raise (source lines 742-757); the dispatcher and
`input` raise builtin `TypeError`s — the source defines no dedicated
exception class of its own. -/
inductive PyExc : Type
  | typeError (msg : String)
  | valueError (msg : String)
deriving DecidableEq

/-- The class an `except` clause matches on. -/
def PyExc.className : PyExc → String
  | .typeError _ => "TypeError"
  | .valueError _ => "ValueError"

/-- A wrapped Result as the dispatcher reads it: the `constant` flag and
the data's shape (`y.data.shape`; the empty tuple — a zero-rank array —
is falsy in Python). -/
structure WrappedR where
  constant : Bool
  shape : List Nat
deriving DecidableEq

/-- An operand before `wrap`: an existing Result node, a raw int/float,
or a raw ndarray. -/
inductive Operand : Type
  | res (constant : Bool) (shape : List Nat)
  | rawInt (n : Int)
  | rawArr (shape : List Nat)
deriving DecidableEq

/-- `wrap` (source lines 134-142), composed with `literal`/`input` for
raw values: an existing Result passes through unchanged; a raw int/float
becomes a memoized constant 0-d array (`input` casts it into
`numpy.zeros(())`); a raw ndarray becomes a memoized constant of its own
shape. -/
def wrapR : Operand → WrappedR
  | .res c s => ⟨c, s⟩
  | .rawInt _ => ⟨true, []⟩
  | .rawArr s => ⟨true, s⟩

inductive DispatchChoice : Type
  | tensorTensor
  | tensorScalar
  | scalarTensorReverse
deriving DecidableEq

/-- `scalar_switch(normal_f, scalar_f, scalar_f_reverse)`'s inner
`f(x, y)` (source lines 647-658): which variant is invoked, with its two
arguments in call order.  `hasReverse` records whether a
`scalar_f_reverse` was supplied for the family. -/
def scalar_switch_f (hasReverse : Bool) (x y : Operand) :
    Except PyExc (DispatchChoice × WrappedR × WrappedR) :=
  let xw := wrapR x
  let yw := wrapR y
  if yw.constant && yw.shape.isEmpty then
    Except.ok (DispatchChoice.tensorScalar, xw, yw)
  else if xw.constant && xw.shape.isEmpty then
    if hasReverse then
      Except.ok (DispatchChoice.scalarTensorReverse, yw, xw)
    else
      Except.error (PyExc.typeError "You cannot do this operation on a scalar.")
  else
    Except.ok (DispatchChoice.tensorTensor, xw, yw)

theorem wrapped_not_zero_rank_const {w : WrappedR}
    (h : ¬(w.constant = true ∧ w.shape = [])) :
    (w.constant && w.shape.isEmpty) = false := by
  cases hc : w.constant with
  | false => simp
  | true =>
    cases hs : w.shape with
    | nil => exact absurd ⟨hc, hs⟩ h
    | cons a t => simp

/-- C7: the fixed dispatch tie-break of every `scalar_switch` family
(both operands wrapped first): a right operand wrapping to a zero-rank
constant selects the tensor-scalar variant on `(left, right)`; otherwise
a left operand wrapping to a zero-rank constant selects the supplied
reverse variant called as `scalar_f_reverse(right, left)`; otherwise the
tensor-tensor variant runs.  In particular `add(x, 5)` picks the
tensor-scalar variant and `add(5, x)` the scalar-tensor variant (the
`add` family supplies `add_scalar` as its reverse). -/
theorem scalar_switch_dispatch (hasReverse : Bool) (x y : Operand) :
    (((wrapR y).constant = true ∧ (wrapR y).shape = []) →
      scalar_switch_f hasReverse x y =
        Except.ok (DispatchChoice.tensorScalar, wrapR x, wrapR y)) ∧
    (¬((wrapR y).constant = true ∧ (wrapR y).shape = []) →
      ((wrapR x).constant = true ∧ (wrapR x).shape = []) → hasReverse = true →
      scalar_switch_f hasReverse x y =
        Except.ok (DispatchChoice.scalarTensorReverse, wrapR y, wrapR x)) ∧
    (¬((wrapR y).constant = true ∧ (wrapR y).shape = []) →
      ¬((wrapR x).constant = true ∧ (wrapR x).shape = []) →
      scalar_switch_f hasReverse x y =
        Except.ok (DispatchChoice.tensorTensor, wrapR x, wrapR y)) ∧
    (∀ s n, scalar_switch_f true (Operand.rawArr (s :: n)) (Operand.rawInt 5) =
        Except.ok (DispatchChoice.tensorScalar, ⟨true, s :: n⟩, ⟨true, []⟩)) ∧
    (∀ s n, scalar_switch_f true (Operand.rawInt 5) (Operand.rawArr (s :: n)) =
        Except.ok (DispatchChoice.scalarTensorReverse, ⟨true, s :: n⟩, ⟨true, []⟩)) := by
  refine ⟨?_, ?_, ?_, fun s n => rfl, fun s n => rfl⟩
  · rintro ⟨hc, hs⟩
    simp [scalar_switch_f, hc, hs]
  · intro hny hx hrev
    simp [scalar_switch_f, wrapped_not_zero_rank_const hny, hx.1, hx.2, hrev]
  · intro hny hnx
    simp [scalar_switch_f, wrapped_not_zero_rank_const hny,
      wrapped_not_zero_rank_const hnx]

/-- C8 (amended): for a `scalar_switch` family constructed without a
scalar-tensor (reverse) variant, a left operand wrapping to a zero-rank
constant and a right operand that does not makes the call raise a
catchable — but generic, builtin — `TypeError` with message
"You cannot do this operation on a scalar.", and no operator variant is
invoked, so no operator node is constructed. -/
theorem scalar_switch_no_reverse_error (x y : Operand)
    (hx : (wrapR x).constant = true ∧ (wrapR x).shape = [])
    (hy : ¬((wrapR y).constant = true ∧ (wrapR y).shape = [])) :
    scalar_switch_f false x y =
      Except.error (PyExc.typeError "You cannot do this operation on a scalar.") := by
  simp [scalar_switch_f, wrapped_not_zero_rank_const hy, hx.1, hx.2]

/-- C8 witness: `sub_inplace(5, x)` — the `sub_inplace` family supplies no
reverse variant. -/
theorem scalar_switch_no_reverse_error_witness :
    scalar_switch_f false (Operand.rawInt 5) (Operand.res false [3]) =
      Except.error (PyExc.typeError "You cannot do this operation on a scalar.") :=
  scalar_switch_no_reverse_error (Operand.rawInt 5) (Operand.res false [3])
    (by decide) (by decide)

/-- A raw Python value as `input` (source lines 116-132) inspects it.
The constructors are disjoint because the Python classes are: a
`gof.Result` instance (NumpyR and PythonR included) is never an ndarray,
an int or a float. -/
inductive RawVal : Type
  | ndarr (shape : List Nat)
  | intV (n : Int)
  | floatV (v : Int)
  | resultNode (isNumpyR : Bool) (isPythonR : Bool)
  | other (tag : Nat)
deriving DecidableEq

/-- What a successful `input` call returns: a freshly constructed NumpyR
(wrapping the given ndarray, or a fresh 0-d float64 array holding a cast
scalar) or a freshly constructed PythonR.  There is no constructor for
handing back an existing Result. -/
inductive InputRet : Type
  | numpyFresh (shape : List Nat)
  | pythonFresh (tag : Nat)
deriving DecidableEq

/-- `input(x)` (source lines 116-132): ndarray → fresh `NumpyR(x)`;
int/float → fresh `NumpyR` over `numpy.zeros((), 'float64') + x`; an
existing `gof.Result` → `TypeError("%s is already a result." % x)`
(the message's leading `str(x)` is elided here); anything else → fresh
`PythonR(x)`. -/
def input_f : RawVal → Except PyExc InputRet
  | .ndarr s => Except.ok (InputRet.numpyFresh s)
  | .intV _ => Except.ok (InputRet.numpyFresh [])
  | .floatV _ => Except.ok (InputRet.numpyFresh [])
  | .resultNode _ _ => Except.error (PyExc.typeError "is already a result.")
  | .other t => Except.ok (InputRet.pythonFresh t)

/-- C8 counterexample: the error the dispatcher raises is not a
dedicated dispatch-configuration error identifying the missing operand
arrangement — it is the builtin generic `TypeError` class, the very class
`input` raises for the unrelated "already a result" failure, and its
message names no operand arrangement. -/
theorem scalar_switch_error_not_dedicated :
    scalar_switch_f false (Operand.rawInt 5) (Operand.res false [3]) =
      Except.error (PyExc.typeError "You cannot do this operation on a scalar.") ∧
    (PyExc.typeError "You cannot do this operation on a scalar.").className =
      (PyExc.typeError "is already a result.").className := ⟨rfl, rfl⟩

/-- C10: `input` raises a `TypeError` for every value that is already a
graph Result node — the framework's NumpyR and PythonR wrappers included
— and whenever `input` returns successfully its argument was not a
Result node, so `input` never returns or re-wraps an existing Result,
only freshly constructed wrappers. -/
theorem input_rejects_results :
    (∀ isN isP, input_f (RawVal.resultNode isN isP) =
      Except.error (PyExc.typeError "is already a result.")) ∧
    (∀ x r, input_f x = Except.ok r → ∀ isN isP, x ≠ RawVal.resultNode isN isP) := by
  refine ⟨fun isN isP => rfl, ?_⟩
  intro x r h isN isP he
  subst he
  simp [input_f] at h

/-! ## `omega_op.update_gradient` (source lines 271-296) -/

/-- What a gradient rule returns: a bare `PythonR` value, or a
list/tuple of values.  (A bare non-sequence, non-PythonR return also
fails the `else` branch — `len()` of it raises — and is subsumed by
`seq`'s mismatch case only in that both error.) -/
inductive GradRet (γ : Type) : Type
  | bare (g : γ)
  | seq (gs : List γ)

/-- `update_gradient` (source lines 271-296): call
`self.grad(*(self.inputs + [grad_d[output] for output in self.outputs]))`;
wrap a bare PythonR result into a one-element list when the operator has
exactly one input; otherwise assert `len(inputgs) == len(self.inputs)`
before any accumulation; then `grad_d.add(input, inputg)` over
`zip(self.inputs, inputgs)`.  `lookup` and `add` are the external gof
accumulator's `__getitem__` and `add`; `σ` is its state. -/
def update_gradient {σ ι ω γ : Type}
    (grad : List ι → List γ → GradRet γ)
    (lookup : σ → ω → γ) (add : σ → ι → γ → σ)
    (inputs : List ι) (outputs : List ω) (grad_d : σ) : Except String σ :=
  let inputgs := grad inputs (outputs.map (lookup grad_d))
  match inputgs with
  | GradRet.bare g =>
    if inputs.length = 1 then
      Except.ok ((inputs.zip [g]).foldl (fun s p => add s p.1 p.2) grad_d)
    else
      Except.error "TypeError: object of type PythonR has no len()"
  | GradRet.seq gs =>
    if gs.length = inputs.length then
      Except.ok ((inputs.zip gs).foldl (fun s p => add s p.1 p.2) grad_d)
    else
      Except.error "AssertionError: len(inputgs) == len(self.inputs)"

/-- C9: the gradient rule is called with the inputs followed by one
gradient per output; a bare result from a single-input operator is
wrapped into a one-element sequence and accepted; in every other case the
returned gradient count must equal the input count, a mismatch erroring
before any gradient is accumulated; each accepted gradient is added into
the accumulator keyed by its corresponding input, in order. -/
theorem update_gradient_spec {σ ι ω γ : Type}
    (grad : List ι → List γ → GradRet γ)
    (lookup : σ → ω → γ) (add : σ → ι → γ → σ)
    (inputs : List ι) (outputs : List ω) (grad_d : σ) :
    (∀ g, grad inputs (outputs.map (lookup grad_d)) = GradRet.bare g →
      inputs.length = 1 →
      update_gradient grad lookup add inputs outputs grad_d =
        Except.ok ((inputs.zip [g]).foldl (fun s p => add s p.1 p.2) grad_d)) ∧
    (∀ g, grad inputs (outputs.map (lookup grad_d)) = GradRet.bare g →
      inputs.length ≠ 1 →
      ∃ msg, update_gradient grad lookup add inputs outputs grad_d =
        Except.error msg) ∧
    (∀ gs, grad inputs (outputs.map (lookup grad_d)) = GradRet.seq gs →
      gs.length = inputs.length →
      update_gradient grad lookup add inputs outputs grad_d =
        Except.ok ((inputs.zip gs).foldl (fun s p => add s p.1 p.2) grad_d)) ∧
    (∀ gs, grad inputs (outputs.map (lookup grad_d)) = GradRet.seq gs →
      gs.length ≠ inputs.length →
      ∃ msg, update_gradient grad lookup add inputs outputs grad_d =
        Except.error msg) := by
  refine ⟨?_, ?_, ?_, ?_⟩
  · intro g hg hlen
    simp [update_gradient, hg, hlen]
  · intro g hg hlen
    exact ⟨"TypeError: object of type PythonR has no len()",
      by simp [update_gradient, hg, hlen]⟩
  · intro gs hgs hlen
    simp [update_gradient, hgs, hlen]
  · intro gs hgs hlen
    exact ⟨"AssertionError: len(inputgs) == len(self.inputs)",
      by simp [update_gradient, hgs, hlen]⟩

/-! ## `cgen` and the compiled-module cache key
(source lines 189-248 and 322-351) -/

theorem str_ext {s t : String} (h : s.data = t.data) : s = t := by
  cases s
  cases t
  exact congrArg String.mk h

/-- Splitting two equal lists around the first occurrence of a separator
character that occurs in neither prefix. -/
theorem sep_split {c : Char} {s₁ s₂ l₁ l₂ : List Char}
    (h : s₁ ++ c :: l₁ = s₂ ++ c :: l₂) (h1 : c ∉ s₁) (h2 : c ∉ s₂) :
    s₁ = s₂ ∧ l₁ = l₂ := by
  induction s₁ generalizing s₂ with
  | nil =>
    cases s₂ with
    | nil => simpa using h
    | cons y ys =>
      exfalso
      rw [List.nil_append, List.cons_append] at h
      have hy : c = y := (List.cons.inj h).1
      exact h2 (by rw [hy]; exact List.mem_cons_self y ys)
  | cons x xs ih =>
    cases s₂ with
    | nil =>
      exfalso
      rw [List.cons_append, List.nil_append] at h
      have hx : x = c := (List.cons.inj h).1
      exact h1 (by rw [← hx]; exact List.mem_cons_self x xs)
    | cons y ys =>
      rw [List.cons_append, List.cons_append] at h
      have hh := List.cons.inj h
      have h1' : c ∉ xs := fun hm => h1 (List.mem_cons_of_mem x hm)
      have h2' : c ∉ ys := fun hm => h2 (List.mem_cons_of_mem y hm)
      obtain ⟨hs, hl⟩ := ih hh.2 h1' h2'
      exact ⟨by rw [hh.1, hs], hl⟩

/-- Splitting two equal lists around the last occurrence of a separator
character that occurs in neither suffix. -/
theorem sep_split_right {c : Char} {n₁ n₂ h₁ h₂ : List Char}
    (h : n₁ ++ c :: h₁ = n₂ ++ c :: h₂) (hh₁ : c ∉ h₁) (hh₂ : c ∉ h₂) :
    n₁ = n₂ ∧ h₁ = h₂ := by
  have hr := congrArg List.reverse h
  simp only [List.reverse_append, List.reverse_cons, List.append_assoc] at hr
  have hr' : h₁.reverse ++ c :: n₁.reverse = h₂.reverse ++ c :: n₂.reverse := hr
  obtain ⟨hhr, hnr⟩ := sep_split hr' (by simpa using hh₁) (by simpa using hh₂)
  exact ⟨List.reverse_injective hnr, List.reverse_injective hhr⟩

/-- One variable's weave type-converter spec as
`cgetspecs`/`weave.ext_tools.assign_variable_types` (external scipy.weave,
source lines 182-187) produces it: the struct member/support/typedef code
fragments, the reference-count flag, and the import code emitted into the
instantiation body. -/
structure TypeSpecS where
  name : String
  membersCode : String
  supportCode : String
  typedefsCode : String
  useRefCount : Bool
  importCode : String
deriving DecidableEq

/-- The `struct_contents` template of `cgen` (source lines 201-226). -/
def struct_contents (behavior : String) (specs : List TypeSpecS) : String :=
  let typedefs := strJoin (specs.map (fun s => s.typedefsCode))
  let members := strJoin (specs.map (fun s => s.membersCode))
  let support := strJoin (specs.map (fun s => s.supportCode))
  let incref := strJoin ((specs.filter (fun s => s.useRefCount)).map
    (fun s => "Py_INCREF(py_" ++ s.name ++ ");\n"))
  let decref := strJoin ((specs.filter (fun s => s.useRefCount)).map
    (fun s => "Py_DECREF(py_" ++ s.name ++ ");\n"))
  "\n      " ++ typedefs ++ "\n\n      " ++ members ++ "\n\n      " ++ support ++
  "\n\n      void init(void) \x7b\n        " ++ incref ++
  "\n      \x7d\n\n      void cleanup(void) \x7b\n        " ++ decref ++
  "\n      \x7d\n\n      int execute(void) \x7b\n        " ++ behavior ++
  "\n        return 0;\n      \x7d\n    "

/-- `struct_name = "_omega_%(name)s_%(md5)s"` (source lines 228-229),
where the md5 is the hex digest of `struct_contents`; the md5 library is
threaded as `md5hex`. -/
def struct_name (md5hex : String → String) (opName behavior : String)
    (specs : List TypeSpecS) : String :=
  "_omega_" ++ opName ++ "_" ++ md5hex (struct_contents behavior specs)

/-- The struct declaration plus the static executor/destructor block
(source lines 230-241), a function of the struct name and contents. -/
def structRender (sn contents : String) : String :=
  "struct " ++ sn ++ " \x7b " ++ contents ++ "\n\x7d;" ++
  "\n    int " ++ sn ++ "_executor(" ++ sn ++ "* self) \x7b\n        return self->execute();\n    \x7d\n\n    void " ++ sn ++
  "_destructor(void* executor, void* self) \x7b\n        ((" ++ sn ++
  "*)self)->cleanup();\n        free(self);\n    \x7d\n    "

/-- The `struct + static` support block `cgen` returns. -/
def cgen_struct (md5hex : String → String) (opName behavior : String)
    (specs : List TypeSpecS) : String :=
  structRender (struct_name md5hex opName behavior specs)
    (struct_contents behavior specs)

/-- The instantiation `code` `cgen` returns (source lines 243-246): struct
allocation, per-variable import code, the init call, the PyCObject
return. -/
def cgen_code (md5hex : String → String) (opName behavior : String)
    (specs : List TypeSpecS) : String :=
  let sn := struct_name md5hex opName behavior specs
  sn ++ "* __STRUCT_P = new " ++ sn ++ "();\n" ++
  strJoin (specs.map (fun s => s.importCode)) ++
  "__STRUCT_P->init();\n" ++
  "return_val = PyCObject_FromVoidPtrAndDesc((void*)(&" ++ sn ++
  "_executor), __STRUCT_P, " ++ sn ++ "_destructor);\n"

/-- What `c_thunk_factory` (source lines 322-351) derives from an
operator instance: class name, the behavior `c_code` produced, the weave
type specs of its bound inputs and outputs, and the extra native headers
and link libraries the operator declares (`c_headers`, `c_libs`). -/
structure OpCodeGen where
  opName : String
  behavior : String
  specs : List TypeSpecS
  cHeaders : List String
  cLibs : List String

/-- The compiled module's name — the cache key:
`module_name = md5.md5(code).hexdigest()` (source line 327); the headers
and libraries are added to the weave build afterwards and never reach the
hash. -/
def module_name (md5hex : String → String) (op : OpCodeGen) : String :=
  md5hex (cgen_code md5hex op.opName op.behavior op.specs)

/-- The generated kernel unit weave compiles for the operator: the
instantiation code and the struct/support block (`c_support_code()` is
`""` for every operator of the file, so these are the module's generated
source components). -/
def generatedUnit (md5hex : String → String) (op : OpCodeGen) : String × String :=
  (cgen_code md5hex op.opName op.behavior op.specs,
   cgen_struct md5hex op.opName op.behavior op.specs)

theorem cgen_code_data (md5hex : String → String) (n b : String)
    (sp : List TypeSpecS) :
    (cgen_code md5hex n b sp).data =
      (struct_name md5hex n b sp).data ++ '*' ::
        (" __STRUCT_P = new " ++ struct_name md5hex n b sp ++ "();\n" ++
         strJoin (sp.map (fun s => s.importCode)) ++ "__STRUCT_P->init();\n" ++
         "return_val = PyCObject_FromVoidPtrAndDesc((void*)(&" ++
         struct_name md5hex n b sp ++ "_executor), __STRUCT_P, " ++
         struct_name md5hex n b sp ++ "_destructor);\n").data := by
  simp only [cgen_code, String.data_append, List.append_assoc]
  rfl

theorem struct_name_data (md5hex : String → String) (n b : String)
    (sp : List TypeSpecS) :
    (struct_name md5hex n b sp).data =
      "_omega_".data ++ (n.data ++ ('_' :: (md5hex (struct_contents b sp)).data)) := by
  simp only [struct_name, String.data_append, List.append_assoc]
  rfl

theorem struct_name_star_free {md5hex : String → String} {n b : String}
    {sp : List TypeSpecS} (hstar : ∀ s, '*' ∉ (md5hex s).data)
    (hn : '*' ∉ n.data) : '*' ∉ (struct_name md5hex n b sp).data := by
  rw [struct_name_data]
  intro hmem
  rcases List.mem_append.mp hmem with h | h
  · simp at h
  · rcases List.mem_append.mp h with h' | h'
    · exact hn h'
    · rcases List.mem_cons.mp h' with h'' | h''
      · simp at h''
      · exact hstar _ h''

/-- C5: the compiled-module cache key (the module name) is the md5 of the
generated instantiation unit, whose struct name embeds the md5 of the
struct body — so, for a collision-free hash with hexdigest-shaped output
(no `*`, no `_` — as md5's 32 hex characters are) and identifier-shaped
class names, two operator instances get the same cache key exactly when
their complete generated source units (instantiation code plus
struct/support block) are identical; and the key never depends on the
extra native headers and link libraries the operator declares. -/
theorem module_name_content_addressed (md5hex : String → String)
    (op₁ op₂ : OpCodeGen)
    (hinj : Function.Injective md5hex)
    (hstar : ∀ s, '*' ∉ (md5hex s).data)
    (hund : ∀ s, '_' ∉ (md5hex s).data)
    (hn₁ : '*' ∉ op₁.opName.data) (hn₂ : '*' ∉ op₂.opName.data) :
    module_name md5hex op₁ =
        md5hex (cgen_code md5hex op₁.opName op₁.behavior op₁.specs) ∧
    (module_name md5hex op₁ = module_name md5hex op₂ ↔
      generatedUnit md5hex op₁ = generatedUnit md5hex op₂) ∧
    (∀ hs₁ ls₁ hs₂ ls₂,
      module_name md5hex ⟨op₁.opName, op₁.behavior, op₁.specs, hs₁, ls₁⟩ =
        module_name md5hex ⟨op₁.opName, op₁.behavior, op₁.specs, hs₂, ls₂⟩) := by
  refine ⟨rfl, ⟨?_, ?_⟩, fun hs₁ ls₁ hs₂ ls₂ => rfl⟩
  · intro hkey
    have hcode : cgen_code md5hex op₁.opName op₁.behavior op₁.specs =
        cgen_code md5hex op₂.opName op₂.behavior op₂.specs := hinj hkey
    have hsn : struct_name md5hex op₁.opName op₁.behavior op₁.specs =
        struct_name md5hex op₂.opName op₂.behavior op₂.specs := by
      have hd := congrArg String.data hcode
      rw [cgen_code_data, cgen_code_data] at hd
      exact str_ext (sep_split hd (struct_name_star_free hstar hn₁)
        (struct_name_star_free hstar hn₂)).1
    have hsnd := congrArg String.data hsn
    rw [struct_name_data, struct_name_data] at hsnd
    have hsnd2 := List.append_cancel_left hsnd
    obtain ⟨-, hhash⟩ := sep_split_right hsnd2 (hund _) (hund _)
    have hcontents : struct_contents op₁.behavior op₁.specs =
        struct_contents op₂.behavior op₂.specs := hinj (str_ext hhash)
    unfold generatedUnit cgen_struct
    rw [hcode, hsn, hcontents]
  · intro hunit
    have hcode := congrArg Prod.fst hunit
    exact congrArg md5hex hcode

/-- The hexadecimal digit characters of an md5 `hexdigest()`. -/
def hexDigit (n : Nat) : Char := "0123456789abcdef".data.getD n 'f'

/-- Eight hex digits encoding one character of the hashed text. -/
def encChar (c : Char) : List Char :=
  (List.range 8).map (fun k => hexDigit (c.toNat / 16 ^ (7 - k) % 16))

/-- A stand-in content hash with hexdigest-shaped output (hex characters
only), used to instantiate the `md5hex` parameter in the witness. -/
def hexHash (s : String) : String := ⟨s.data.flatMap encChar⟩

theorem encChar_length (c : Char) : (encChar c).length = 8 := by
  simp [encChar]

theorem hexDigit_bounded_inj :
    ∀ a, a < 16 → ∀ b, b < 16 → hexDigit a = hexDigit b → a = b := by decide

theorem encChar_inj {a b : Char} (h : encChar a = encChar b) : a = b := by
  have h8 : ∀ k, k < 8 → hexDigit (a.toNat / 16 ^ (7 - k) % 16)
      = hexDigit (b.toNat / 16 ^ (7 - k) % 16) := by
    intro k hk
    have hg := congrArg (fun l => l.getD k ' ') h
    simp only [encChar] at hg
    rw [getD_map_range _ _ _ _ hk, getD_map_range _ _ _ _ hk] at hg
    exact hg
  have hd : ∀ k, k < 8 → a.toNat / 16 ^ (7 - k) % 16 = b.toNat / 16 ^ (7 - k) % 16 := by
    intro k hk
    exact hexDigit_bounded_inj _ (Nat.mod_lt _ (by norm_num)) _
      (Nat.mod_lt _ (by norm_num)) (h8 k hk)
  have ha : a.toNat < 4294967296 := UInt32.toNat_lt_size a.val
  have hb : b.toNat < 4294967296 := UInt32.toNat_lt_size b.val
  have e0 := hd 0 (by norm_num)
  have e1 := hd 1 (by norm_num)
  have e2 := hd 2 (by norm_num)
  have e3 := hd 3 (by norm_num)
  have e4 := hd 4 (by norm_num)
  have e5 := hd 5 (by norm_num)
  have e6 := hd 6 (by norm_num)
  have e7 := hd 7 (by norm_num)
  norm_num at e0 e1 e2 e3 e4 e5 e6 e7
  have hab : a.toNat = b.toNat := by omega
  exact Char.eq_of_val_eq (UInt32.ext hab)

theorem flatMap_encChar_inj : ∀ l₁ l₂ : List Char,
    l₁.flatMap encChar = l₂.flatMap encChar → l₁ = l₂ := by
  intro l₁
  induction l₁ with
  | nil =>
    intro l₂ h
    cases l₂ with
    | nil => rfl
    | cons y ys =>
      exfalso
      rw [List.flatMap_nil, List.flatMap_cons] at h
      have hnil : encChar y = [] := (List.append_eq_nil.mp h.symm).1
      have h0 := congrArg List.length hnil
      rw [encChar_length] at h0
      simp at h0
  | cons x xs ih =>
    intro l₂ h
    cases l₂ with
    | nil =>
      exfalso
      rw [List.flatMap_cons, List.flatMap_nil] at h
      have hnil : encChar x = [] := (List.append_eq_nil.mp h).1
      have h0 := congrArg List.length hnil
      rw [encChar_length] at h0
      simp at h0
    | cons y ys =>
      rw [List.flatMap_cons, List.flatMap_cons] at h
      have hlen : (encChar x).length = (encChar y).length := by
        rw [encChar_length, encChar_length]
      obtain ⟨h1, h2⟩ := List.append_inj h hlen
      rw [encChar_inj h1, ih ys h2]

theorem hexHash_injective : Function.Injective hexHash := by
  intro s t h
  exact str_ext (flatMap_encChar_inj s.data t.data (congrArg String.data h))

theorem hexDigit_plain (n : Nat) : hexDigit n ≠ '*' ∧ hexDigit n ≠ '_' := by
  by_cases hn : n < 16
  · have hall : ∀ m, m < 16 → hexDigit m ≠ '*' ∧ hexDigit m ≠ '_' := by decide
    exact hall n hn
  · have hlen : ("0123456789abcdef".data).length = 16 := rfl
    have hle : ("0123456789abcdef".data).length ≤ n := by
      rw [hlen]
      omega
    have hf : hexDigit n = 'f' := by
      simp [hexDigit, List.getD, List.get?_eq_getElem?, List.getElem?_eq_none hle]
    rw [hf]
    decide

theorem hexHash_star_free (s : String) : '*' ∉ (hexHash s).data := by
  intro hmem
  rw [show (hexHash s).data = s.data.flatMap encChar from rfl, List.mem_flatMap] at hmem
  obtain ⟨c, _, hc⟩ := hmem
  simp only [encChar, List.mem_map] at hc
  obtain ⟨k, _, hk⟩ := hc
  exact (hexDigit_plain _).1 hk

theorem hexHash_und_free (s : String) : '_' ∉ (hexHash s).data := by
  intro hmem
  rw [show (hexHash s).data = s.data.flatMap encChar from rfl, List.mem_flatMap] at hmem
  obtain ⟨c, _, hc⟩ := hmem
  simp only [encChar, List.mem_map] at hc
  obtain ⟨k, _, hk⟩ := hc
  exact (hexDigit_plain _).2 hk

/-- `add_elemwise`'s code-generation data under one concrete weave spec
binding (base `omega_op.c_headers`/`c_libs` are empty). -/
def addOpCG : OpCodeGen :=
  ⟨"add_elemwise", "z_i = x_i + y_i;",
    [⟨"x", "m;", "s;", "t;", true, "imp;\n"⟩], [], []⟩

/-- `mul_elemwise` over the same binding. -/
def mulOpCG : OpCodeGen :=
  ⟨"mul_elemwise", "z_i = x_i * y_i;",
    [⟨"x", "m;", "s;", "t;", true, "imp;\n"⟩], [], []⟩

/-- C5 witness: the content-addressing equivalence at two concrete
operators under the hexdigest-shaped stand-in hash. -/
theorem module_name_content_addressed_witness :
    module_name hexHash addOpCG =
        hexHash (cgen_code hexHash addOpCG.opName addOpCG.behavior addOpCG.specs) ∧
    (module_name hexHash addOpCG = module_name hexHash mulOpCG ↔
      generatedUnit hexHash addOpCG = generatedUnit hexHash mulOpCG) ∧
    (∀ hs₁ ls₁ hs₂ ls₂,
      module_name hexHash ⟨addOpCG.opName, addOpCG.behavior, addOpCG.specs, hs₁, ls₁⟩ =
        module_name hexHash ⟨addOpCG.opName, addOpCG.behavior, addOpCG.specs, hs₂, ls₂⟩) :=
  module_name_content_addressed hexHash addOpCG mulOpCG hexHash_injective
    hexHash_star_free hexHash_und_free (by decide) (by decide)
